import Mathlib

/-!
Shallow embedding of `examples/executor_runner/executor_runner.cpp`:
a CLI runner (`main`) and a JNI binding (`PytorchJni::forward`) that both
run the same load/execute flow over a static, pre-sized two-tier memory
discipline (a fixed 4 MiB method-metadata arena plus memory-planned
buffers handed to a `HierarchicalAllocator`).

Addresses are modelled as `Nat`: the process image places the static
pool `method_allocator_pool` at the bottom of the modelled address
space and every heap allocation (`std::make_unique<uint8_t[]>`) returns
a fresh region above all previously allocated ones, reflecting the C++
object model's guarantee that distinct live objects occupy disjoint
storage.  Sizes are `Nat` (the `size_t` values involved are far below
any overflow boundary in this program).
-/

namespace ExecutorRunner

/-- A contiguous address range: `[base, base + size)`. -/
structure Region where
  base : Nat
  size : Nat
  deriving DecidableEq

/-- Two regions are disjoint when one ends at or before the other begins. -/
def Region.disjoint (r1 r2 : Region) : Prop :=
  r1.base + r1.size ≤ r2.base ∨ r2.base + r2.size ≤ r1.base

/-- Membership of an address in a region. -/
def inRegion (r : Region) (a : Nat) : Prop :=
  r.base ≤ a ∧ a < r.base + r.size

instance (r1 r2 : Region) : Decidable (Region.disjoint r1 r2) := by
  unfold Region.disjoint; infer_instance

instance (r : Region) (a : Nat) : Decidable (inRegion r a) := by
  unfold inRegion; infer_instance

/-- Byte memory: a store from addresses to byte values. -/
abbrev Mem : Type := Nat → Nat

/-- Overwrite every address of region `r` with `f`'s value there,
leaving all other addresses untouched. -/
def writeBytes (m : Mem) (r : Region) (f : Nat → Nat) : Mem :=
  fun a => if inRegion r a then f a else m a

/-- The process-global static pool backing the method allocator
(`static uint8_t method_allocator_pool[4 * 1024U * 1024U]`, line 37).
The model places it at the bottom of the address space. -/
def method_allocator_pool : Region :=
  { base := 0, size := 4 * 1024 * 1024 }

/-- First modelled heap address: the heap lives above the static image. -/
def heapBase : Nat := method_allocator_pool.base + method_allocator_pool.size

/-- A memory-planned buffer: the owned heap region plus its byte
contents (`std::unique_ptr<uint8_t[]>`). -/
structure PlannedBuffer where
  region : Region
  data : List Nat
  deriving DecidableEq

/-- Heap allocation model: `make_unique<uint8_t[]>(n)` obtains a fresh
`n`-byte region at the current heap frontier and value-initializes it,
which for `uint8_t` zero-fills the array (`new uint8_t[n]()`). Returns
the buffer and the new heap frontier. -/
def make_unique_uint8_array (heap : Nat) (n : Nat) : PlannedBuffer × Nat :=
  ({ region := { base := heap, size := n }, data := List.replicate n 0 }, heap + n)

/-- The slice of `MethodMeta` the runner consumes: the planned-buffer
count and the per-id size query (both treated as authoritative external
input, lines 130 and 134). -/
structure MethodMeta where
  num_memory_planned_buffers : Nat
  memory_planned_buffer_size : Nat → Nat

/-- The planned-buffer construction loop (lines 131-138), recursing over
the list of ids: for each id, allocate a buffer of
`memory_planned_buffer_size id` bytes and push it in order. Threads the
heap frontier. -/
def buildPlannedBuffersAux (size : Nat → Nat) (heap : Nat) :
    List Nat → List PlannedBuffer × Nat
  | [] => ([], heap)
  | id :: rest =>
      let b := make_unique_uint8_array heap (size id)
      let r := buildPlannedBuffersAux size b.2 rest
      (b.1 :: r.1, r.2)

/-- The full loop `for (size_t id = 0; id < num_memory_planned_buffers; ++id)`
(lines 130-138): builds the planned buffers for ids `0..k-1` in order. -/
def buildPlannedBuffers (meta : MethodMeta) (heap : Nat) :
    List PlannedBuffer × Nat :=
  buildPlannedBuffersAux meta.memory_planned_buffer_size heap
    (List.range meta.num_memory_planned_buffers)

/-- `HierarchicalAllocator planned_memory({planned_spans.data(),
planned_spans.size()})` (lines 139-140): receives the span list
(positionally indexed regions) exactly as pushed. -/
structure HierarchicalAllocator where
  buffers : List Region
  deriving DecidableEq

/-- The spans handed to the `HierarchicalAllocator`: one span per
planned buffer, in push (= id) order (lines 137, 139-140). -/
def plannedSpans (bufs : List PlannedBuffer) : HierarchicalAllocator :=
  ⟨bufs.map (fun b => b.region)⟩

/-- Error codes surfaced by the arena and the load step. -/
inductive ErrorCode where
  | OutOfArenaSpace
  | LoadFailed
  deriving DecidableEq

/-- Modelled from the spec: the `MemoryAllocator` class is an external
runtime component (`runtime/core/memory_allocator.h`) not present under
`src/`; only its construction site (lines 116-117) is. Per the spec
(section 4.1) it is a monotonic bump allocator over a fixed region:
`base`/`size` describe the owned region, `cur` the bytes handed out so
far. -/
structure MemoryAllocator where
  base : Nat
  size : Nat
  cur : Nat
  deriving DecidableEq

/-- Modelled from the spec: `allocate(n_bytes) -> region |
Fail(OutOfArenaSpace)`. A request that fits in the remaining capacity
succeeds and advances the offset; a request that would exceed remaining
capacity fails immediately with `OutOfArenaSpace`, changing nothing and
never falling back to the general heap. -/
def MemoryAllocator.allocate (a : MemoryAllocator) (n : Nat) :
    Except ErrorCode (Region × MemoryAllocator) :=
  if a.cur + n ≤ a.size then
    .ok ({ base := a.base + a.cur, size := n },
         { a with cur := a.cur + n })
  else
    .error .OutOfArenaSpace

/-- Result of running a sequence of arena requests: the regions handed
out so far (in request order), the final allocator state, and the error
that stopped the sequence, if any. -/
structure AllocRun where
  regions : List Region
  state : MemoryAllocator
  err : Option ErrorCode
  deriving DecidableEq

/-- Run a sequence of allocation requests against the arena, stopping at
the first failure. -/
def allocAll (a : MemoryAllocator) : List Nat → AllocRun
  | [] => ⟨[], a, none⟩
  | n :: rest =>
      match a.allocate n with
      | .ok (r, a') =>
          let run := allocAll a' rest
          ⟨r :: run.regions, run.state, run.err⟩
      | .error e => ⟨[], a, some e⟩

/-- A fresh arena of capacity `C` over a region based at 0. -/
def mkArena (C : Nat) : MemoryAllocator := { base := 0, size := C, cur := 0 }

/-- `MemoryAllocator method_allocator{MemoryAllocator(sizeof(method_allocator_pool),
method_allocator_pool)}` (lines 116-117 and 372-373): the arena over the
process-global static pool. -/
def mkMethodAllocator : MemoryAllocator :=
  { base := method_allocator_pool.base
    size := method_allocator_pool.size
    cur := 0 }

/-- The environment of one load/execute cycle: the outcomes of the
external collaborators (file loader, program parser, method queries,
executor), which the runner only consumes. `load_requests` are the
arena allocations `load_method` performs while building the method's
bookkeeping; `load_method_ok` covers every other way loading can fail. -/
structure Env where
  loader_ok : Bool
  program_ok : Bool
  has_method : Bool
  method_meta_ok : Bool
  meta : MethodMeta
  load_requests : List Nat
  load_method_ok : Bool
  execute_ok : Bool
  outputs_size : Nat

/-- Whether `program->load_method(method_name, &memory_manager)`
(line 152 / 408) succeeds: all its arena allocations must fit and no
other load failure may occur. -/
def loadOk (env : Env) : Bool :=
  (allocAll mkMethodAllocator env.load_requests).err.isNone && env.load_method_ok

/-- The steps of the runner's single-path flow, in source order. -/
inductive Step where
  | loadFile
  | parseProgram
  | getMethodName
  | getMethodMeta
  | setupArena
  | buildBuffers
  | assembleManager
  | loadMethod
  | prepareInputs
  | execute
  | readOutputs
  deriving DecidableEq

/-- The sequence of steps the runner performs (`main`, lines 68-183, and
identically `forward`, lines 326-440).  Each `ET_CHECK_MSG` failure
halts the process, so later steps are absent.  A failed `Program::load`
is only logged (lines 75-77 / 331-333) and the flow still reaches the
`program->get_method_name(0)` call; the process only dies inside that
accessor (the library's internal check on a failed `Result`), so with
`program_ok = false` the trace still contains `getMethodName` but
nothing after it. -/
def runnerTrace (env : Env) : List Step :=
  Step.loadFile ::
    (if env.loader_ok then
      Step.parseProgram :: Step.getMethodName ::
        (if env.program_ok && env.has_method then
          Step.getMethodMeta ::
            (if env.method_meta_ok then
              Step.setupArena :: Step.buildBuffers :: Step.assembleManager ::
                Step.loadMethod ::
                  (if loadOk env then
                    Step.prepareInputs :: Step.execute ::
                      (if env.execute_ok then [Step.readOutputs] else [])
                  else [])
            else [])
        else [])
    else [])

/-- The structurally observable outcome of one completed cycle: how many
planned buffers were set up, their sizes in id order, and how many
outputs the executed method reported. -/
structure Obs where
  num_buffers : Nat
  buffer_sizes : List Nat
  num_outputs : Nat
  deriving DecidableEq

/-- Everything a completed cycle built: the arena as constructed
(line 116 / 372), the arena once the method is bound (after
`load_method` consumed its metadata allocations), the arena after
execution (execution allocates from `planned_memory`, never from the
method allocator, so it is the bound state unchanged), the planned
buffers, the spans handed to the `HierarchicalAllocator`, the
observation, and the heap frontier after the cycle's allocations. -/
structure CycleFinal where
  arena0 : MemoryAllocator
  arena_bound : MemoryAllocator
  arena_final : MemoryAllocator
  buffers : List PlannedBuffer
  planned_memory : HierarchicalAllocator
  obs : Obs
  heapNext : Nat
  deriving DecidableEq

/-- One load/execute cycle (`main` lines 68-183; `forward` lines
326-440): load file, parse program, query method name and metadata,
set up the arena over the static pool, build the planned buffers,
assemble the manager, bind the method, prepare inputs, execute once,
read outputs.  Returns `none` when the flow halts before completing
(any `ET_CHECK` failure or the internal halt on a failed program). -/
def runCycle (env : Env) (heap : Nat) : Option CycleFinal :=
  if env.loader_ok then
    -- Program::load failure is only logged; the flow continues to the
    -- method-name query (see runnerTrace).
    if env.program_ok && env.has_method then
      if env.method_meta_ok then
        let arena0 := mkMethodAllocator
        let build := buildPlannedBuffers env.meta heap
        let planned := plannedSpans build.1
        let run := allocAll arena0 env.load_requests
        if run.err.isNone && env.load_method_ok then
          if env.execute_ok then
            some { arena0 := arena0
                   arena_bound := run.state
                   arena_final := run.state
                   buffers := build.1
                   planned_memory := planned
                   obs := { num_buffers := build.1.length
                            buffer_sizes := build.1.map (fun b => b.region.size)
                            num_outputs := env.outputs_size }
                   heapNext := build.2 }
          else none
        else none
      else none
    else none
  else none

/-- The value the JNI `forward` hands back to Java.  The active code
path always returns `JEValue.optionalNull` (lines 444-448); the
marshalling of real outputs is commented out. -/
inductive JEValueRepr where
  | nullValue
  | marshalled (num_outputs : Nat)
  deriving DecidableEq

/-- `main` (lines 51-196): runs one cycle (then prints outputs and dumps
profile data, which the model does not track). -/
def mainRun (env : Env) (heap : Nat) : Option CycleFinal :=
  runCycle env heap

/-- `PytorchJni::forward` (lines 320-463): receives the Java inputs
`jinputs`, runs the identical cycle — the active code never reads
`jinputs`; inputs are filled by `PrepareInputTensors` like in `main`
(the consumption of `jinputs` is a commented-out TODO) — and returns
`JEValue.optionalNull` to Java regardless of the outputs. -/
def forward (env : Env) (jinputs : List Nat) (heap : Nat) :
    Option (JEValueRepr × CycleFinal) :=
  match runCycle env heap with
  | some r => some (JEValueRepr.nullValue, r)
  | none => none

/-- Modelled from the spec: the claim that `forward` "returns the
executed method's outputs marshaled into a Java EValue for the caller"
(spec sections 1 and its step (7)), stated over the embedding: every
completed `forward` call returns a marshalled EValue carrying the
executed method's outputs, not the null EValue. -/
def forwardMarshalsOutputs : Prop :=
  ∀ (env : Env) (jinputs : List Nat) (heap : Nat) (v : JEValueRepr)
    (r : CycleFinal),
    forward env jinputs heap = some (v, r) →
    v = JEValueRepr.marshalled r.obs.num_outputs

/-! ### Helper lemmas about the planned-buffer build loop -/

theorem buildAux_map_region_size (size : Nat → Nat) (ids : List Nat) :
    ∀ heap : Nat,
      ((buildPlannedBuffersAux size heap ids).1).map (fun b => b.region.size)
        = ids.map size := by
  induction ids with
  | nil => intro heap; rfl
  | cons id rest ih =>
      intro heap
      simp [buildPlannedBuffersAux, make_unique_uint8_array, ih]

theorem buildAux_map_data (size : Nat → Nat) (ids : List Nat) :
    ∀ heap : Nat,
      ((buildPlannedBuffersAux size heap ids).1).map (fun b => b.data)
        = ids.map (fun id => List.replicate (size id) 0) := by
  induction ids with
  | nil => intro heap; rfl
  | cons id rest ih =>
      intro heap
      simp [buildPlannedBuffersAux, make_unique_uint8_array, ih]

theorem buildAux_length (size : Nat → Nat) (ids : List Nat) (heap : Nat) :
    (buildPlannedBuffersAux size heap ids).1.length = ids.length := by
  have h := buildAux_map_region_size size ids heap
  have := congrArg List.length h
  simpa using this

theorem buildAux_heap_le (size : Nat → Nat) (ids : List Nat) :
    ∀ heap : Nat, heap ≤ (buildPlannedBuffersAux size heap ids).2 := by
  induction ids with
  | nil => intro heap; exact Nat.le_refl _
  | cons id rest ih =>
      intro heap
      have := ih (heap + size id)
      simp only [buildPlannedBuffersAux, make_unique_uint8_array]
      omega

theorem buildAux_bounds (size : Nat → Nat) (ids : List Nat) :
    ∀ heap : Nat, ∀ b ∈ (buildPlannedBuffersAux size heap ids).1,
      heap ≤ b.region.base ∧
      b.region.base + b.region.size ≤ (buildPlannedBuffersAux size heap ids).2 := by
  induction ids with
  | nil => intro heap b hb; simp [buildPlannedBuffersAux] at hb
  | cons id rest ih =>
      intro heap b hb
      have hle := buildAux_heap_le size rest (heap + size id)
      simp only [buildPlannedBuffersAux, make_unique_uint8_array, List.mem_cons] at hb
      rcases hb with hb | hb
      · subst hb
        simp only [buildPlannedBuffersAux, make_unique_uint8_array]
        omega
      · have := ih (heap + size id) b hb
        simp only [buildPlannedBuffersAux, make_unique_uint8_array]
        omega

theorem buildAux_ordered (size : Nat → Nat) (ids : List Nat) :
    ∀ heap : Nat,
      List.Pairwise
        (fun b1 b2 => b1.region.base + b1.region.size ≤ b2.region.base)
        (buildPlannedBuffersAux size heap ids).1 := by
  induction ids with
  | nil => intro heap; exact List.Pairwise.nil
  | cons id rest ih =>
      intro heap
      simp only [buildPlannedBuffersAux, make_unique_uint8_array]
      refine List.Pairwise.cons ?_ (ih (heap + size id))
      intro b hb
      have := (buildAux_bounds size rest (heap + size id) b hb).1
      simpa using this

/-! ### Helper lemmas about the arena -/

theorem allocAll_keeps_region (a : MemoryAllocator) (reqs : List Nat) :
    (allocAll a reqs).state.base = a.base ∧
    (allocAll a reqs).state.size = a.size := by
  induction reqs generalizing a with
  | nil => exact ⟨rfl, rfl⟩
  | cons n rest ih =>
      by_cases h : a.cur + n ≤ a.size
      · simpa [allocAll, MemoryAllocator.allocate, h] using
          ih { a with cur := a.cur + n }
      · simp [allocAll, MemoryAllocator.allocate, h]

theorem allocAll_ok (a : MemoryAllocator) (reqs : List Nat)
    (h : a.cur + reqs.sum ≤ a.size) :
    (allocAll a reqs).err = none ∧
    (allocAll a reqs).regions.length = reqs.length ∧
    (allocAll a reqs).state.cur = a.cur + reqs.sum ∧
    ∀ r ∈ (allocAll a reqs).regions,
      a.base ≤ r.base ∧ r.base + r.size ≤ a.base + a.size := by
  induction reqs generalizing a with
  | nil => simp [allocAll]
  | cons n rest ih =>
      have hsum : (n :: rest).sum = n + rest.sum := by simp
      have hfit : a.cur + n ≤ a.size := by omega
      have ih' := ih { a with cur := a.cur + n } (by simp; omega)
      simp only [allocAll, MemoryAllocator.allocate, hfit, if_pos]
      refine ⟨ih'.1, by simpa using ih'.2.1, ?_, ?_⟩
      · have h3 := ih'.2.2.1
        simp only [hsum]
        simp at h3
        omega
      intro r hr
      simp only [List.mem_cons] at hr
      rcases hr with hr | hr
      · subst hr; simp; omega
      · exact ih'.2.2.2 r hr

theorem allocAll_first_overflow (a : MemoryAllocator) (pre : List Nat)
    (n : Nat) (post : List Nat) (hpre : a.cur + pre.sum ≤ a.size)
    (hover : a.size < a.cur + pre.sum + n) :
    allocAll a (pre ++ n :: post) =
      ⟨(allocAll a pre).regions, (allocAll a pre).state,
        some ErrorCode.OutOfArenaSpace⟩ := by
  induction pre generalizing a with
  | nil =>
      have hno : ¬ (a.cur + n ≤ a.size) := by simp at hover; omega
      simp [allocAll, MemoryAllocator.allocate, hno]
  | cons m rest ih =>
      have hfit : a.cur + m ≤ a.size := by simp at hpre; omega
      have step := ih { a with cur := a.cur + m }
        (by simp at hpre ⊢; omega) (by simp at hover ⊢; omega)
      simp [allocAll, MemoryAllocator.allocate, hfit, step]

/-! ### Helper lemmas about memory writes -/

theorem writeBytes_outside (m : Mem) (r : Region) (f : Nat → Nat) (a : Nat)
    (h : ¬ inRegion r a) : writeBytes m r f a = m a := by
  simp [writeBytes, h]

theorem disjoint_not_inRegion (r1 r2 : Region) (a : Nat)
    (hd : Region.disjoint r1 r2) (h2 : inRegion r2 a) : ¬ inRegion r1 a := by
  rcases hd with hd | hd <;> (intro h1; rcases h1 with ⟨l1, u1⟩; rcases h2 with ⟨l2, u2⟩; omega)

/-! ### Concrete sample inputs used by the witnesses -/

/-- Sample metadata: two planned buffers of sizes 1 and 2. -/
def metaSmall : MethodMeta :=
  { num_memory_planned_buffers := 2
    memory_planned_buffer_size := fun id => id + 1 }

/-- Sample metadata matching the spec's scenario: two planned buffers of
sizes 1024 and 2048. -/
def metaTwo : MethodMeta :=
  { num_memory_planned_buffers := 2
    memory_planned_buffer_size := fun id => if id = 0 then 1024 else 2048 }

/-- A cycle environment in which every external step succeeds. -/
def envOk : Env :=
  { loader_ok := true
    program_ok := true
    has_method := true
    method_meta_ok := true
    meta := metaSmall
    load_requests := [16, 32]
    load_method_ok := true
    execute_ok := true
    outputs_size := 3 }

/-- The environment of a run whose `Program::load` fails while every
other external step would succeed. -/
def envProgramFail : Env :=
  { envOk with program_ok := false }

/-- The cycle `runCycle envOk heapBase` completes with. -/
def cycleOk : CycleFinal :=
  { arena0 := ⟨0, 4194304, 0⟩
    arena_bound := ⟨0, 4194304, 48⟩
    arena_final := ⟨0, 4194304, 48⟩
    buffers := [⟨⟨4194304, 1⟩, [0]⟩, ⟨⟨4194305, 2⟩, [0, 0]⟩]
    planned_memory := ⟨[⟨4194304, 1⟩, ⟨4194305, 2⟩]⟩
    obs := ⟨2, [1, 2], 3⟩
    heapNext := 4194307 }

/-- The cycle `runCycle envOk (heapBase + 100)` completes with: same
structure, shifted buffer addresses. -/
def cycleOk2 : CycleFinal :=
  { cycleOk with
    buffers := [⟨⟨4194404, 1⟩, [0]⟩, ⟨⟨4194405, 2⟩, [0, 0]⟩]
    planned_memory := ⟨[⟨4194404, 1⟩, ⟨4194405, 2⟩]⟩
    heapNext := 4194407 }

/-! ### The claims -/

/-- Claim C1: the planned-buffer construction loop produces exactly
`num_memory_planned_buffers` regions, the region at position `id` has
capacity exactly `memory_planned_buffer_size id`, and the regions are
handed to the `HierarchicalAllocator` in id order `0..k-1` with no
reordering (the span list is exactly the sizes of ids `0..k-1` in
order). -/
theorem claim_c1 (meta : MethodMeta) (heap : Nat) :
    (plannedSpans (buildPlannedBuffers meta heap).1).buffers.length
        = meta.num_memory_planned_buffers ∧
    (plannedSpans (buildPlannedBuffers meta heap).1).buffers.map Region.size
        = (List.range meta.num_memory_planned_buffers).map
            meta.memory_planned_buffer_size ∧
    ∀ id : Nat, id < meta.num_memory_planned_buffers →
      ((plannedSpans (buildPlannedBuffers meta heap).1).buffers[id]?).map
          Region.size
        = some (meta.memory_planned_buffer_size id) := by
  have hmap : (plannedSpans (buildPlannedBuffers meta heap).1).buffers.map
      Region.size
      = (List.range meta.num_memory_planned_buffers).map
          meta.memory_planned_buffer_size := by
    simpa [plannedSpans, buildPlannedBuffers, List.map_map, Function.comp]
      using buildAux_map_region_size meta.memory_planned_buffer_size
        (List.range meta.num_memory_planned_buffers) heap
  refine ⟨?_, hmap, ?_⟩
  · have := congrArg List.length hmap
    simpa using this
  · intro id hid
    rw [← List.getElem?_map, hmap, List.getElem?_map, List.getElem?_range hid]
    rfl

/-- Witness for C1 at the spec's scenario (k = 2, sizes 1024 and 2048):
position 1 holds a region of capacity 2048. -/
theorem claim_c1_witness :
    1 < metaTwo.num_memory_planned_buffers ∧
    ((plannedSpans (buildPlannedBuffers metaTwo heapBase).1).buffers[1]?).map
        Region.size
      = some 2048 :=
  ⟨by decide, (claim_c1 metaTwo heapBase).2.2 1 (by decide)⟩

/-- Claim C9: each planned buffer is value-initialized at allocation
(`std::make_unique<uint8_t[]>(buffer_size)` performs `new uint8_t[n]()`),
so immediately after construction buffer `id` holds exactly
`memory_planned_buffer_size id` zero bytes, and every byte of every
planned buffer is zero. -/
theorem claim_c9 (meta : MethodMeta) (heap : Nat) (id : Nat)
    (hid : id < meta.num_memory_planned_buffers) :
    (((buildPlannedBuffers meta heap).1)[id]?).map (fun b => b.data)
        = some (List.replicate (meta.memory_planned_buffer_size id) 0) ∧
    ∀ b ∈ (buildPlannedBuffers meta heap).1, ∀ x ∈ b.data, x = 0 := by
  have hmap : ((buildPlannedBuffers meta heap).1).map (fun b => b.data)
      = (List.range meta.num_memory_planned_buffers).map
          (fun id => List.replicate (meta.memory_planned_buffer_size id) 0) :=
    buildAux_map_data meta.memory_planned_buffer_size
      (List.range meta.num_memory_planned_buffers) heap
  constructor
  · rw [← List.getElem?_map, hmap, List.getElem?_map, List.getElem?_range hid]
    rfl
  · intro b hb x hx
    have hmem : b.data ∈ ((buildPlannedBuffers meta heap).1).map
        (fun b => b.data) := List.mem_map_of_mem _ hb
    rw [hmap] at hmem
    rcases List.mem_map.mp hmem with ⟨i, _, hi⟩
    rw [← hi] at hx
    exact List.eq_of_mem_replicate hx

/-- Witness for C9: buffer 0 of the sample build is exactly 1024 zero
bytes. -/
theorem claim_c9_witness :
    0 < metaTwo.num_memory_planned_buffers ∧
    (((buildPlannedBuffers metaTwo heapBase).1)[0]?).map (fun b => b.data)
      = some (List.replicate 1024 0) :=
  ⟨by decide, (claim_c9 metaTwo heapBase 0 (by decide)).1⟩

/-- Claim C4: against a fresh arena of capacity `C`, a request sequence
of total `R ≤ C` succeeds entirely (no request fails, one region per
request, every region inside the arena — never the general heap), and
the first request that would exceed the remaining capacity fails
immediately with `OutOfArenaSpace`, leaving the regions and allocator
state of the prior requests exactly as they were (no rollback, no
corruption). -/
theorem claim_c4 (C : Nat) (reqs : List Nat) :
    (reqs.sum ≤ C →
      (allocAll (mkArena C) reqs).err = none ∧
      (allocAll (mkArena C) reqs).regions.length = reqs.length ∧
      ∀ r ∈ (allocAll (mkArena C) reqs).regions,
        (mkArena C).base ≤ r.base ∧ r.base + r.size ≤ (mkArena C).base + C) ∧
    (∀ pre n post, reqs = pre ++ n :: post → pre.sum ≤ C →
      C < pre.sum + n →
      allocAll (mkArena C) reqs =
        ⟨(allocAll (mkArena C) pre).regions, (allocAll (mkArena C) pre).state,
          some ErrorCode.OutOfArenaSpace⟩) := by
  constructor
  · intro hR
    have h := allocAll_ok (mkArena C) reqs (by simpa [mkArena] using hR)
    exact ⟨h.1, h.2.1, h.2.2.2⟩
  · intro pre n post hsplit hpre hover
    subst hsplit
    exact allocAll_first_overflow (mkArena C) pre n post
      (by simpa [mkArena] using hpre) (by simp [mkArena]; omega)

/-- Witness for C4 at the spec's scenarios: requests 4 and 8 against
capacity 16 all succeed; a single request of 32 against capacity 16
fails with `OutOfArenaSpace`. -/
theorem claim_c4_witness :
    (([4, 8] : List Nat).sum ≤ 16 ∧ (allocAll (mkArena 16) [4, 8]).err = none) ∧
    ((16 : Nat) < ([] : List Nat).sum + 32 ∧
      (allocAll (mkArena 16) [32]).err = some ErrorCode.OutOfArenaSpace) :=
  ⟨⟨by decide, ((claim_c4 16 [4, 8]).1 (by decide)).1⟩,
   ⟨by decide, by
      rw [(claim_c4 16 [32]).2 [] 32 [] rfl (by decide) (by decide)]⟩⟩

/-- Claim C3: the metadata arena's pool and every planned buffer occupy
pairwise non-overlapping ranges (the pool sits in the static image,
every planned buffer above it in the heap), so writes into the pool
never change a planned buffer's bytes and writes into a planned buffer
never change the pool's bytes. -/
theorem claim_c3 (meta : MethodMeta) (heap : Nat) (hh : heapBase ≤ heap) :
    (∀ b ∈ (buildPlannedBuffers meta heap).1,
        Region.disjoint method_allocator_pool b.region) ∧
    List.Pairwise (fun b1 b2 => Region.disjoint b1.region b2.region)
      (buildPlannedBuffers meta heap).1 ∧
    (∀ (m : Mem) (f : Nat → Nat) (b : PlannedBuffer),
        b ∈ (buildPlannedBuffers meta heap).1 → ∀ a : Nat,
        inRegion b.region a → writeBytes m method_allocator_pool f a = m a) ∧
    (∀ (m : Mem) (f : Nat → Nat) (b : PlannedBuffer),
        b ∈ (buildPlannedBuffers meta heap).1 → ∀ a : Nat,
        inRegion method_allocator_pool a → writeBytes m b.region f a = m a) := by
  have hdisj : ∀ b ∈ (buildPlannedBuffers meta heap).1,
      Region.disjoint method_allocator_pool b.region := by
    intro b hb
    have := (buildAux_bounds meta.memory_planned_buffer_size
      (List.range meta.num_memory_planned_buffers) heap b hb).1
    left
    simp only [heapBase] at hh
    omega
  refine ⟨hdisj, ?_, ?_, ?_⟩
  · have := buildAux_ordered meta.memory_planned_buffer_size
      (List.range meta.num_memory_planned_buffers) heap
    exact this.imp (fun h => Or.inl h)
  · intro m f b hb a ha
    exact writeBytes_outside m method_allocator_pool f a
      (disjoint_not_inRegion _ _ a (hdisj b hb) ha)
  · intro m f b hb a ha
    have hd : Region.disjoint b.region method_allocator_pool :=
      (hdisj b hb).symm
    exact writeBytes_outside m b.region f a
      (disjoint_not_inRegion _ _ a hd ha)

/-- Witness for C3: with the sample build at the heap base, a write over
the whole static pool leaves the first planned buffer's byte at address
4194304 unchanged. -/
theorem claim_c3_witness :
    heapBase ≤ heapBase ∧
    writeBytes (fun _ => 0) method_allocator_pool (fun _ => 1) 4194304 = 0 :=
  ⟨Nat.le_refl _,
   (claim_c3 metaSmall heapBase (Nat.le_refl _)).2.2.1 (fun _ => 0)
     (fun _ => 1) ⟨⟨4194304, 1⟩, [0]⟩ (by decide) 4194304 (by decide)⟩

/-! ### Helper lemmas about completed cycles -/

theorem runCycle_arena0 (env : Env) (heap : Nat) (r : CycleFinal)
    (h : runCycle env heap = some r) : r.arena0 = mkMethodAllocator := by
  simp only [runCycle] at h
  repeat split at h
  all_goals first
    | exact Option.noConfusion h
    | (injection h with h; subst h; rfl)

theorem runCycle_arena_states (env : Env) (heap : Nat) (r : CycleFinal)
    (h : runCycle env heap = some r) :
    r.arena0 = mkMethodAllocator ∧
    r.arena_bound = (allocAll mkMethodAllocator env.load_requests).state ∧
    r.arena_final = r.arena_bound := by
  simp only [runCycle] at h
  repeat split at h
  all_goals first
    | exact Option.noConfusion h
    | (injection h with h; subst h; exact ⟨rfl, rfl, rfl⟩)

theorem runCycle_obs (env : Env) (heap : Nat) (r : CycleFinal)
    (h : runCycle env heap = some r) :
    r.obs = { num_buffers := env.meta.num_memory_planned_buffers
              buffer_sizes :=
                (List.range env.meta.num_memory_planned_buffers).map
                  env.meta.memory_planned_buffer_size
              num_outputs := env.outputs_size } := by
  simp only [runCycle] at h
  repeat split at h
  all_goals first
    | exact Option.noConfusion h
    | (injection h with h; subst h;
       simp [buildPlannedBuffers, buildAux_length, buildAux_map_region_size])

theorem forward_inv (env : Env) (jinputs : List Nat) (heap : Nat)
    (v : JEValueRepr) (r : CycleFinal)
    (h : forward env jinputs heap = some (v, r)) :
    runCycle env heap = some r ∧ v = JEValueRepr.nullValue := by
  unfold forward at h
  cases hc : runCycle env heap with
  | none => rw [hc] at h; cases h
  | some r' =>
      rw [hc] at h
      injection h with h
      rw [Prod.mk.injEq] at h
      constructor
      · rw [h.2]
      · exact h.1.symm

/-- Claim C5: throughout one load/execute cycle the metadata arena is a
single contiguous region of fixed capacity `4 * 1024 * 1024` bytes
carved out (as `arena0`) before any loading, and its base address and
capacity are unchanged from construction through method binding and
execution (only the consumed-offset moves; execution changes nothing at
all). -/
theorem claim_c5 (env : Env) (heap : Nat) (r : CycleFinal)
    (h : runCycle env heap = some r) :
    r.arena0.base = method_allocator_pool.base ∧
    r.arena0.size = 4 * 1024 * 1024 ∧
    r.arena_bound.base = r.arena0.base ∧
    r.arena_bound.size = r.arena0.size ∧
    r.arena_final = r.arena_bound := by
  obtain ⟨h0, hb, hf⟩ := runCycle_arena_states env heap r h
  refine ⟨by rw [h0]; rfl, by rw [h0]; rfl, ?_, ?_, hf⟩
  · rw [h0, hb, (allocAll_keeps_region mkMethodAllocator env.load_requests).1]
  · rw [h0, hb, (allocAll_keeps_region mkMethodAllocator env.load_requests).2]

/-- Witness for C5: the sample all-success cycle completes and its arena
has capacity 4 MiB. -/
theorem claim_c5_witness :
    runCycle envOk heapBase = some cycleOk ∧
    cycleOk.arena0.size = 4 * 1024 * 1024 :=
  ⟨rfl, (claim_c5 envOk heapBase cycleOk rfl).2.1⟩

/-- Claim C6: two runs of the full cycle with identical inputs — even at
different heap states, as with repeated JNI `forward` calls in one
process — produce observably identical structure: the same planned
buffer count, the same per-id sizes, and the same output count. -/
theorem claim_c6 (env : Env) (h1 h2 : Nat) (r1 r2 : CycleFinal)
    (e1 : runCycle env h1 = some r1) (e2 : runCycle env h2 = some r2) :
    r1.obs = r2.obs ∧
    r1.obs.num_buffers = env.meta.num_memory_planned_buffers ∧
    r1.obs.buffer_sizes =
      (List.range env.meta.num_memory_planned_buffers).map
        env.meta.memory_planned_buffer_size ∧
    r1.obs.num_outputs = env.outputs_size := by
  have o1 := runCycle_obs env h1 r1 e1
  have o2 := runCycle_obs env h2 r2 e2
  rw [o1, o2]
  exact ⟨rfl, rfl, rfl, rfl⟩

/-- Witness for C6: the sample cycle run at two different heap states
yields identical observations. -/
theorem claim_c6_witness :
    runCycle envOk heapBase = some cycleOk ∧
    runCycle envOk (heapBase + 100) = some cycleOk2 ∧
    cycleOk.obs = cycleOk2.obs :=
  ⟨rfl, rfl,
   (claim_c6 envOk heapBase (heapBase + 100) cycleOk cycleOk2 rfl rfl).1⟩

/-- Claim C10: every completed load cycle in the process — a `main` run
or any JNI `forward` invocation — constructs its metadata arena over the
same process-global static 4 MiB pool: identical base address and
capacity, namely those of `method_allocator_pool`. -/
theorem claim_c10 (env1 env2 : Env) (jinputs : List Nat) (h1 h2 : Nat)
    (r1 : CycleFinal) (v : JEValueRepr) (r2 : CycleFinal)
    (e1 : mainRun env1 h1 = some r1)
    (e2 : forward env2 jinputs h2 = some (v, r2)) :
    r1.arena0.base = method_allocator_pool.base ∧
    r1.arena0.size = method_allocator_pool.size ∧
    r2.arena0.base = r1.arena0.base ∧
    r2.arena0.size = r1.arena0.size ∧
    method_allocator_pool.size = 4 * 1024 * 1024 := by
  have a1 : r1.arena0 = mkMethodAllocator := runCycle_arena0 env1 h1 r1 e1
  have a2 : r2.arena0 = mkMethodAllocator :=
    runCycle_arena0 env2 h2 r2 (forward_inv env2 jinputs h2 v r2 e2).1
  rw [a1, a2]
  exact ⟨rfl, rfl, rfl, rfl, rfl⟩

/-- Witness for C10: a concrete `main` run and a concrete `forward` call
both complete over the same pool. -/
theorem claim_c10_witness :
    mainRun envOk heapBase = some cycleOk ∧
    forward envOk [9] (heapBase + 100) =
      some (JEValueRepr.nullValue, cycleOk2) ∧
    cycleOk.arena0.base = method_allocator_pool.base :=
  ⟨rfl, rfl,
   (claim_c10 envOk envOk [9] heapBase (heapBase + 100) cycleOk
     JEValueRepr.nullValue cycleOk2 rfl rfl).1⟩

/-- Claim C8 counterexample: it is false that the JNI `forward` entry
point returns the executed method's outputs marshaled into a Java
EValue — a concrete completed `forward` call (3 outputs) returns the
null EValue instead. -/
theorem claim_c8_counterexample : ¬ forwardMarshalsOutputs := by
  intro h
  have hnull := h envOk [] heapBase JEValueRepr.nullValue cycleOk rfl
  simp at hnull

/-- Claim C8 (amended): the JNI `forward` entry point runs the same
load/execute flow as the CLI runner (its cycle is exactly `runCycle`),
but it ignores the Java-supplied inputs (inputs are filled with ones by
`PrepareInputTensors`; the consumption of `jinputs` is commented out)
and it always returns the null Java EValue (`optionalNull`) rather than
the marshaled outputs. -/
theorem claim_c8_amended (env : Env) (jin jin2 : List Nat) (heap : Nat) :
    forward env jin heap = forward env jin2 heap ∧
    (forward env jin heap).map Prod.snd = runCycle env heap ∧
    ∀ (v : JEValueRepr) (r : CycleFinal),
      forward env jin heap = some (v, r) → v = JEValueRepr.nullValue := by
  refine ⟨rfl, ?_, ?_⟩
  · unfold forward
    cases runCycle env heap <;> simp
  · intro v r h
    exact (forward_inv env jin heap v r h).2

/-- Witness for C8 (amended): a concrete `forward` call with non-empty
Java inputs completes and returns the null EValue. -/
theorem claim_c8_witness :
    forward envOk [5] heapBase = some (JEValueRepr.nullValue, cycleOk) ∧
    JEValueRepr.nullValue = JEValueRepr.nullValue :=
  ⟨rfl,
   (claim_c8_amended envOk [5] [] heapBase).2.2 JEValueRepr.nullValue cycleOk
     rfl⟩

/-- Claim C2 is a code bug: when `Program::load` fails the runner only
logs the failure (`if (!program.ok()) { ET_LOG(Error, ...) }`, no
return) and still goes on to query the method name — the trace of a run
whose program parse failed nevertheless contains `getMethodName`. -/
theorem claim_c2_bug :
    envProgramFail.program_ok = false ∧
    Step.getMethodName ∈ runnerTrace envProgramFail ∧
    runnerTrace envProgramFail =
      [Step.loadFile, Step.parseProgram, Step.getMethodName] := by
  refine ⟨rfl, ?_, ?_⟩ <;> decide

/-- Claim C7: whenever a cycle reaches execution, the steps performed so
far are exactly, in order: load file, parse program, query method name,
query metadata, set up arena, build planned buffers, assemble manager,
bind (load) method, prepare inputs, execute — so binding precedes input
preparation, which precedes the single execution; the method executes
exactly once, and at most a read of the outputs follows. -/
theorem claim_c7 (env : Env) (hx : Step.execute ∈ runnerTrace env) :
    (runnerTrace env).count Step.execute = 1 ∧
    ∃ rest : List Step,
      runnerTrace env =
        [Step.loadFile, Step.parseProgram, Step.getMethodName,
         Step.getMethodMeta, Step.setupArena, Step.buildBuffers,
         Step.assembleManager, Step.loadMethod, Step.prepareInputs,
         Step.execute] ++ rest ∧
      Step.execute ∉ rest ∧
      (rest = [] ∨ rest = [Step.readOutputs]) := by
  by_cases h1 : env.loader_ok = true
  · by_cases h2 : (env.program_ok && env.has_method) = true
    · by_cases h3 : env.method_meta_ok = true
      · by_cases h4 : loadOk env = true
        · by_cases h5 : env.execute_ok = true
          · have htrace : runnerTrace env =
                [Step.loadFile, Step.parseProgram, Step.getMethodName,
                 Step.getMethodMeta, Step.setupArena, Step.buildBuffers,
                 Step.assembleManager, Step.loadMethod, Step.prepareInputs,
                 Step.execute, Step.readOutputs] := by
              simp [runnerTrace, h1, h2, h3, h4, h5]
            refine ⟨by rw [htrace]; decide,
              [Step.readOutputs], by rw [htrace]; rfl, by decide, Or.inr rfl⟩
          · have htrace : runnerTrace env =
                [Step.loadFile, Step.parseProgram, Step.getMethodName,
                 Step.getMethodMeta, Step.setupArena, Step.buildBuffers,
                 Step.assembleManager, Step.loadMethod, Step.prepareInputs,
                 Step.execute] := by
              simp [runnerTrace, h1, h2, h3, h4, h5]
            refine ⟨by rw [htrace]; decide,
              [], by rw [htrace]; rfl, by decide, Or.inl rfl⟩
        · exfalso
          simp [runnerTrace, h1, h2, h3, h4] at hx
      · exfalso
        simp [runnerTrace, h1, h2, h3] at hx
    · exfalso
      simp [runnerTrace, h1, h2] at hx
  · exfalso
    simp [runnerTrace, h1] at hx

/-- Witness for C7: the all-success environment reaches execution and
its trace has the stated shape. -/
theorem claim_c7_witness :
    Step.execute ∈ runnerTrace envOk ∧
    ((runnerTrace envOk).count Step.execute = 1 ∧
      ∃ rest : List Step,
        runnerTrace envOk =
          [Step.loadFile, Step.parseProgram, Step.getMethodName,
           Step.getMethodMeta, Step.setupArena, Step.buildBuffers,
           Step.assembleManager, Step.loadMethod, Step.prepareInputs,
           Step.execute] ++ rest ∧
        Step.execute ∉ rest ∧
        (rest = [] ∨ rest = [Step.readOutputs])) :=
  ⟨by decide, claim_c7 envOk (by decide)⟩

end ExecutorRunner
